import Mathlib

/-!
Verification development for the Krypton container daemon.

The definitions below are shallow embeddings of the TypeScript source:
pure functions become Lean functions over `List Char` / `List Nat`,
JavaScript strings are modelled as Lean `String` (code-unit level,
ASCII case mapping), byte buffers as `List Nat`, machine numbers as
`Nat`/`Int`/`Rat`, and thrown exceptions as `Except`.
-/

namespace Krypton

/-! ## Generic string helpers (JS semantics) -/

/-- Bool test that `pat` is a prefix of `s` (JS `String.startsWith`). -/
def startsWith : List Char → List Char → Bool
  | [], _ => true
  | _ :: _, [] => false
  | a :: ps, b :: ss => a == b && startsWith ps ss

theorem startsWith_iff (pat s : List Char) :
    startsWith pat s = true ↔ ∃ u, s = pat ++ u := by
  induction pat generalizing s with
  | nil => simp [startsWith]
  | cons a ps ih =>
    cases s with
    | nil => simp [startsWith]
    | cons b ss =>
      simp only [startsWith, Bool.and_eq_true, beq_iff_eq, ih]
      constructor
      · rintro ⟨rfl, u, rfl⟩; exact ⟨u, rfl⟩
      · rintro ⟨u, h⟩
        injection h with h1 h2
        exact ⟨h1.symm, u, h2⟩

/-- JS `String.split` with a single-character separator:
`"".split(sep)` is `[""]`, separators delimit (possibly empty) fields. -/
def splitOnChar (sep : Char) : List Char → List (List Char)
  | [] => [[]]
  | c :: t =>
    if c = sep then [] :: splitOnChar sep t
    else
      match splitOnChar sep t with
      | [] => [[c]]
      | h :: r => (c :: h) :: r

/-- Decimal value of a digit character. -/
def digitVal (c : Char) : Nat := c.toNat - '0'.toNat

/-- Value of a decimal digit string. -/
def digitsToNat (cs : List Char) : Nat := cs.foldl (fun a c => 10 * a + digitVal c) 0

/-- The ASCII whitespace characters skipped by JS `parseInt`. -/
def jsWhitespace (c : Char) : Bool :=
  c == ' ' || c == '\t' || c == '\n' || c == '\r' || c == '\x0b' || c == '\x0c'

/-- JS `parseInt(s, 10)`: skip leading whitespace, optional sign, then the
longest prefix of decimal digits; `NaN` (here `none`) when no digit follows. -/
def parseIntBase10 (s : List Char) : Option Int :=
  match s.dropWhile jsWhitespace with
  | [] => none
  | c :: t =>
    let rest := if c = '-' ∨ c = '+' then t else c :: t
    let ds := rest.takeWhile Char.isDigit
    if ds.isEmpty then none
    else if c = '-' then some (-(digitsToNat ds : Int)) else some (digitsToNat ds : Int)

/-! ## Variable rule validation (`validateVariableValue`, part_000 lines 233-251) -/

/-- The loop body of `validateVariableValue`: walk the pipe-separated rule
tokens in order.  `nullable` returns valid at once for the empty value,
`string` is skipped, `max:<digits…>` rejects when the value is longer than
the `parseInt` of what follows `max:`, and anything else falls through. -/
def validateRules (value : List Char) : List (List Char) → Bool
  | [] => true
  | r :: rest =>
    if r = "nullable".toList then
      if value = [] then true else validateRules value rest
    else if r = "string".toList then
      validateRules value rest
    else
      match r with
      | 'm' :: 'a' :: 'x' :: ':' :: ds =>
        match parseIntBase10 ds with
        | none => validateRules value rest
        | some m => if (value.length : Int) > m then false else validateRules value rest
      | _ => validateRules value rest

/-- `validateVariableValue(value, rules)` from the source: split `rules` on
`|` and run the token loop. -/
def validateVariableValue (value rules : String) : Bool :=
  validateRules value.toList (splitOnChar '|' rules.toList)

/-- Spec-side grammar: the bound `N` carried by a well-formed `max:N` token
(`N` a nonempty all-digit numeral), `none` for every other token. -/
def maxTokenBound : List Char → Option Nat
  | 'm' :: 'a' :: 'x' :: ':' :: ds =>
    if !ds.isEmpty && ds.all Char.isDigit then some (digitsToNat ds) else none
  | _ => none

/-- Spec-side grammar of known tokens: `nullable`, `string`, `max:N`. -/
def isKnownToken (r : List Char) : Bool :=
  r = "nullable".toList || r = "string".toList || (maxTokenBound r).isSome

theorem digit_char_facts (c : Char) (hc : c.isDigit = true) :
    jsWhitespace c = false ∧ c ≠ '-' ∧ c ≠ '+' := by
  have hval : 48 ≤ c.val.toBitVec.toNat ∧ c.val.toBitVec.toNat ≤ 57 := by
    simp only [Char.isDigit, ge_iff_le, Bool.and_eq_true, decide_eq_true_eq] at hc
    obtain ⟨h1, h2⟩ := hc
    rw [UInt32.le_def, BitVec.le_def] at h1 h2
    exact ⟨h1, h2⟩
  have hne : ∀ d : Char, d.val.toBitVec.toNat < 48 → ¬ c = d := by
    intro d hd h
    subst h
    omega
  refine ⟨?_, hne '-' (by decide), hne '+' (by decide)⟩
  simp only [jsWhitespace, Bool.or_eq_false_iff, beq_eq_false_iff_ne, ne_eq]
  exact ⟨⟨⟨⟨⟨hne ' ' (by decide), hne '\t' (by decide)⟩, hne '\n' (by decide)⟩,
    hne '\r' (by decide)⟩, hne '\x0b' (by decide)⟩, hne '\x0c' (by decide)⟩

theorem takeWhile_eq_self {p : Char → Bool} :
    ∀ {l : List Char}, (∀ a ∈ l, p a = true) → l.takeWhile p = l := by
  intro l
  induction l with
  | nil => intro _; rfl
  | cons a t ih =>
    intro h
    simp only [List.takeWhile_cons, h a (List.mem_cons_self a t), if_true, List.cons.injEq,
      true_and]
    exact ih fun b hb => h b (List.mem_cons_of_mem a hb)

theorem parseIntBase10_digits (ds : List Char) (hne : ds ≠ [])
    (hdig : ds.all Char.isDigit = true) :
    parseIntBase10 ds = some (digitsToNat ds : Int) := by
  cases ds with
  | nil => exact absurd rfl hne
  | cons c t =>
    simp only [List.all_cons, Bool.and_eq_true] at hdig
    obtain ⟨hc, ht⟩ := hdig
    obtain ⟨hcw, hcm, hcp⟩ := digit_char_facts c hc
    have hdrop : (c :: t).dropWhile jsWhitespace = c :: t := by
      simp [List.dropWhile_cons, hcw]
    have htake : (c :: t).takeWhile Char.isDigit = c :: t := by
      refine takeWhile_eq_self ?_
      intro a ha
      rcases List.mem_cons.mp ha with h | h
      · exact h ▸ hc
      · exact (List.all_eq_true.mp ht) a h
    unfold parseIntBase10
    rw [hdrop]
    simp [hcm, hcp, htake]

theorem maxTokenBound_eq_some {r : List Char} {n : Nat} (h : maxTokenBound r = some n) :
    ∃ ds, r = 'm' :: 'a' :: 'x' :: ':' :: ds ∧ ds ≠ [] ∧ ds.all Char.isDigit = true ∧
      digitsToNat ds = n := by
  unfold maxTokenBound at h
  split at h
  · rename_i ds
    split at h
    · rename_i hcond
      simp only [Bool.and_eq_true, Bool.not_eq_true] at hcond
      refine ⟨ds, rfl, ?_, hcond.2, by injection h⟩
      intro hds
      subst hds
      simp at hcond
    · exact absurd h (by simp)
  · exact absurd h (by simp)

theorem validateRules_known (v : List Char) :
    ∀ ts : List (List Char), (∀ t ∈ ts, isKnownToken t = true) →
      (validateRules v ts = true ↔
        ∀ t ∈ ts, ∀ n, maxTokenBound t = some n → v.length ≤ n) := by
  intro ts
  induction ts with
  | nil => intro _; simp [validateRules]
  | cons r rest ih =>
    intro hknown
    have hk := hknown r (List.mem_cons_self r rest)
    have hrest := fun t ht => hknown t (List.mem_cons_of_mem r ht)
    by_cases h1 : r = "nullable".toList
    · subst h1
      by_cases hv : v = []
      · subst hv
        simp [validateRules]
      · have hb : maxTokenBound "nullable".toList = none := rfl
        simp only [validateRules, if_neg hv, if_pos rfl, List.forall_mem_cons, hb]
        simp only [Option.some.injEq, false_implies, implies_true, forall_const, true_and,
          reduceCtorEq]
        exact ih hrest
    · by_cases h2 : r = "string".toList
      · subst h2
        have hb : maxTokenBound "string".toList = none := rfl
        have hns : ("string".toList : List Char) ≠ "nullable".toList := by decide
        simp only [validateRules, if_neg hns, if_pos rfl, List.forall_mem_cons, hb]
        simp only [Option.some.injEq, false_implies, implies_true, forall_const, true_and,
          reduceCtorEq]
        exact ih hrest
      · have hsome : (maxTokenBound r).isSome = true := by
          unfold isKnownToken at hk
          rcases Bool.or_eq_true_iff.mp hk with hx | hx
          · rcases Bool.or_eq_true_iff.mp hx with hy | hy
            · exact absurd (of_decide_eq_true hy) h1
            · exact absurd (of_decide_eq_true hy) h2
          · exact hx
        obtain ⟨n, hbn⟩ := Option.isSome_iff_exists.mp hsome
        obtain ⟨ds, hshape, hdne, hddig, hdval⟩ := maxTokenBound_eq_some hbn
        subst hshape
        rw [show validateRules v (('m' :: 'a' :: 'x' :: ':' :: ds) :: rest) =
            (if (v.length : Int) > (digitsToNat ds : Int) then false
             else validateRules v rest) by
          simp only [validateRules, if_neg h1, if_neg h2, parseIntBase10_digits ds hdne hddig]]
        constructor
        · intro h
          split at h
          · exact absurd h (by simp)
          · rename_i hgt
            intro t ht
            rcases List.mem_cons.mp ht with rfl | htr
            · intro m hm
              rw [hbn] at hm
              injection hm with hm
              subst hm
              omega
            · exact (ih hrest).mp h t htr
        · intro h
          have hlen : v.length ≤ n := h _ (List.mem_cons_self _ _) n hbn
          rw [if_neg (by omega)]
          exact (ih hrest).mpr fun t ht => h t (List.mem_cons_of_mem _ ht)

/-- C4 (counterexample): the token `max:0x` is outside the claim's grammar of
known tokens, yet appending it to a rule string flips `validateVariableValue`
from `true` to `false`, because the source's `parseInt("0x", 10)` parses the
digit prefix `0` and the token then acts as `max:0`. -/
theorem validateVariableValue_unknown_token_flips :
    isKnownToken "max:0x".toList = false ∧
    validateVariableValue "a" "string" = true ∧
    validateVariableValue "a" "string|max:0x" = false := by
  decide

/-- C4 (amended): for rule strings whose pipe-separated tokens are all in the
known grammar (`nullable`, `string`, `max:N` with `N` a decimal numeral),
`validateVariableValue` returns `true` exactly when no `max:N` token rejects,
i.e. when the value's length is at most every such `N`.  An empty value is
accepted outright (it satisfies every `max:N` with `N : Nat`), and `string`
and `nullable` impose no constraint. -/
theorem validateVariableValue_known_tokens (v rules : String) (ts : List (List Char))
    (hts : splitOnChar '|' rules.toList = ts)
    (hknown : ∀ t ∈ ts, isKnownToken t = true) :
    validateVariableValue v rules = true ↔
      ∀ t ∈ ts, ∀ n, maxTokenBound t = some n → v.toList.length ≤ n := by
  unfold validateVariableValue
  rw [hts]
  exact validateRules_known v.toList ts hknown

/-- C4 witness: `validateVariableValue_known_tokens` applied to the concrete
value `"abc"` and rule string `"nullable|max:5"`. -/
theorem validateVariableValue_known_tokens_witness :
    validateVariableValue "abc" "nullable|max:5" = true := by
  rw [validateVariableValue_known_tokens "abc" "nullable|max:5"
    ["nullable".toList, "max:5".toList] (by decide) (by decide)]
  decide

/-! ## JS `String.prototype.replace` with a string pattern

`s.replace(pat, rep)` replaces only the first occurrence of `pat`, applying
ECMAScript `GetSubstitution` to `rep` (`$$`, `$&`, a dollar followed by a
backquote, and `$\x27` are active; with a string pattern there are no capture
groups, so every other `$` is literal). -/

/-- ECMAScript `GetSubstitution` for a string-pattern replace: `matched` is
the matched text, `before`/`after` the parts of the subject around it. -/
def getSubstitution (matched before after : List Char) : List Char → List Char
  | [] => []
  | c :: t =>
    if c = '$' then
      match t with
      | [] => ['$']
      | d :: t2 =>
        if d = '$' then '$' :: getSubstitution matched before after t2
        else if d = '&' then matched ++ getSubstitution matched before after t2
        else if d = '\x60' then before ++ getSubstitution matched before after t2
        else if d = '\x27' then after ++ getSubstitution matched before after t2
        else '$' :: d :: getSubstitution matched before after t2
    else c :: getSubstitution matched before after t

/-- JS `String.indexOf`: position of the first occurrence of `pat`, `none`
when there is none (an empty `pat` matches at position `0`). -/
def indexOfSub (pat : List Char) : List Char → Option Nat
  | [] => if startsWith pat [] then some 0 else none
  | c :: t => if startsWith pat (c :: t) then some 0 else (indexOfSub pat t).map (· + 1)

/-- JS `s.replace(pat, rep)` for a string `pat`: substitute at the first
occurrence only. -/
def jsReplaceFirst (s pat rep : List Char) : List Char :=
  match indexOfSub pat s with
  | none => s
  | some i =>
    s.take i ++ getSubstitution pat (s.take i) (s.drop (i + pat.length)) rep
      ++ s.drop (i + pat.length)

/-- Claim-side replacement: replace the first occurrence of `pat` by `rep`
verbatim and leave everything else (later occurrences included) unchanged. -/
def specReplaceFirst (pat rep : List Char) : List Char → List Char
  | [] => if startsWith pat [] then rep ++ List.drop pat.length [] else []
  | c :: t =>
    if startsWith pat (c :: t) then rep ++ (c :: t).drop pat.length
    else c :: specReplaceFirst pat rep t

theorem getSubstitution_no_dollar (matched before after : List Char) :
    ∀ rep : List Char, '$' ∉ rep → getSubstitution matched before after rep = rep := by
  intro rep
  induction rep with
  | nil => intro _; rfl
  | cons c t ih =>
    intro h
    have hc : ¬ c = '$' := fun hc => h (hc ▸ List.mem_cons_self c t)
    rw [getSubstitution.eq_def]
    simp only [if_neg hc]
    exact congrArg (c :: ·) (ih fun hm => h (List.mem_cons_of_mem c hm))

theorem jsReplaceFirst_eq_spec (pat rep : List Char) (hrep : '$' ∉ rep) :
    ∀ s, jsReplaceFirst s pat rep = specReplaceFirst pat rep s := by
  intro s
  induction s with
  | nil =>
    by_cases h : startsWith pat [] = true
    · simp [jsReplaceFirst, indexOfSub, specReplaceFirst, h,
        getSubstitution_no_dollar _ _ _ rep hrep]
    · simp [jsReplaceFirst, indexOfSub, specReplaceFirst, h]
  | cons c t ih =>
    by_cases h : startsWith pat (c :: t) = true
    · simp [jsReplaceFirst, indexOfSub, specReplaceFirst, h,
        getSubstitution_no_dollar _ _ _ rep hrep]
    · rw [specReplaceFirst, if_neg h, ← ih]
      unfold jsReplaceFirst
      rw [show indexOfSub pat (c :: t) = (indexOfSub pat t).map (· + 1) by
        rw [indexOfSub, if_neg h]]
      cases hidx : indexOfSub pat t with
      | none => simp
      | some i =>
        simp only [Option.map_some']
        rw [getSubstitution_no_dollar _ _ _ rep hrep,
          getSubstitution_no_dollar _ _ _ rep hrep]
        rw [List.take_succ_cons, show i + 1 + pat.length = (i + pat.length) + 1 by omega,
          List.drop_succ_cons]
        simp [List.append_assoc]

/-! ## Template variables (`processVariables`, part_000 lines 197-231) -/

/-- One entry of `ServerConfig["variables"]`. -/
structure ServerVariable where
  name : String
  description : Option String
  defaultValue : String
  currentValue : Option String
  rules : String
deriving DecidableEq

deriving instance DecidableEq for Except

/-- `properties` of a cargo entry (the `customProperties` record carries no
daemon-relevant data and is omitted). -/
structure CargoFileProperties where
  hidden : Option Bool
  readonly : Option Bool
  noDelete : Option Bool

/-- A `CargoFile` entry. -/
structure CargoFile where
  id : String
  url : String
  targetPath : String
  properties : CargoFileProperties

/-- `variable.currentValue ?? variable.defaultValue`. -/
def variableValue (v : ServerVariable) : String := v.currentValue.getD v.defaultValue

/-- The normalized variable name: `name.toLowerCase().replace(/ /g, "_")`
(ASCII case mapping). -/
def normalizeVarName (name : String) : List Char :=
  name.toList.map fun c => if c.toLower = ' ' then '_' else c.toLower

/-- The placeholder searched for: `%<normalized name>%`. -/
def placeholder (name : String) : List Char := '%' :: (normalizeVarName name ++ ['%'])

/-- The message of the error thrown on a rule violation. -/
def variableViolation (v : ServerVariable) : String :=
  "Variable " ++ v.name ++ " value doesn\x27t match rules: " ++ v.rules

/-- The `for (const variable of variables)` loop of `processVariables`:
validate each variable's value, then `result = result.replace(placeholder,
value)` (first occurrence only, JS semantics). -/
def processVarsLoop : List Char → List ServerVariable → Except String (List Char)
  | result, [] => Except.ok result
  | result, v :: rest =>
    if validateVariableValue (variableValue v) v.rules then
      processVarsLoop (jsReplaceFirst result (placeholder v.name) (variableValue v).toList) rest
    else Except.error (variableViolation v)

/-- Opening literal of the cargo regex `%cargo:\[\x27([^\x27]+)\x27\]%`. -/
def cargoOpen : List Char := "%cargo:[\x27".toList

/-- Closing literal of the cargo regex. -/
def cargoClose : List Char := "\x27]%".toList

/-- One leftmost-match attempt of the cargo regex at the head of `s`:
the opening literal, a nonempty run of non-quote characters, the closing
literal.  Returns the captured path and the remainder of `s`. -/
def matchCargoAt (s : List Char) : Option (List Char × List Char) :=
  if startsWith cargoOpen s then
    let rest := s.drop cargoOpen.length
    let path := rest.takeWhile fun c => c != '\x27'
    if path.isEmpty then none
    else
      let rest2 := rest.drop path.length
      if startsWith cargoClose rest2 then some (path, rest2.drop cargoClose.length) else none
  else none

theorem matchCargoAt_length {s path rem : List Char}
    (h : matchCargoAt s = some (path, rem)) : rem.length < s.length := by
  have h9 : cargoOpen.length = 9 := by decide
  have h3 : cargoClose.length = 3 := by decide
  by_cases hopen : startsWith cargoOpen s = true
  · obtain ⟨u, hu⟩ := (startsWith_iff cargoOpen s).mp hopen
    simp only [matchCargoAt, hopen, if_true] at h
    split at h
    · exact absurd h (by simp)
    · split at h
      · injection h with h'
        injection h' with h1 h2
        subst h2
        subst hu
        simp only [List.length_drop, List.length_append, h9, h3]
        omega
      · exact absurd h (by simp)
  · simp [matchCargoAt, hopen] at h

/-- The `result.replace(cargoRegex, cb)` pass: scan left to right; each match
whose path names a known cargo file is replaced by the bare path, an unknown
path throws. -/
def processCargoScan (cargo : List CargoFile) : List Char → Except String (List Char)
  | [] => Except.ok []
  | c :: t =>
    match h : matchCargoAt (c :: t) with
    | some (path, rem) =>
      match cargo.find? fun f => f.targetPath == path.asString with
      | some _ => (processCargoScan cargo rem).map fun r => path ++ r
      | none => Except.error ("Referenced cargo file not found: " ++ path.asString)
    | none => (processCargoScan cargo t).map fun r => c :: r
termination_by l => l.length
decreasing_by
  · exact matchCargoAt_length h
  · simp

/-- `processVariables(input, variables, cargo?)`: the variable loop, then the
cargo pass when `cargo` is present. -/
def processVariables (input : String) (vars : List ServerVariable)
    (cargo : Option (List CargoFile)) : Except String String :=
  match processVarsLoop input.toList vars with
  | Except.error e => Except.error e
  | Except.ok r =>
    match cargo with
    | none => Except.ok r.asString
    | some c => (processCargoScan c r).map List.asString

theorem processVarsLoop_eq_foldl :
    ∀ (vars : List ServerVariable) (cs : List Char),
      (∀ v ∈ vars, validateVariableValue (variableValue v) v.rules = true) →
      (∀ v ∈ vars, '$' ∉ (variableValue v).toList) →
      processVarsLoop cs vars = Except.ok (vars.foldl
        (fun r v => specReplaceFirst (placeholder v.name) (variableValue v).toList r) cs) := by
  intro vars
  induction vars with
  | nil => intro cs _ _; rfl
  | cons v rest ih =>
    intro cs hval hds
    rw [processVarsLoop, if_pos (hval v (List.mem_cons_self v rest)), List.foldl_cons,
      jsReplaceFirst_eq_spec _ _ (hds v (List.mem_cons_self v rest))]
    exact ih _ (fun w hw => hval w (List.mem_cons_of_mem v hw))
      (fun w hw => hds w (List.mem_cons_of_mem v hw))

theorem processVarsLoop_first_violation :
    ∀ (vars : List ServerVariable) (cs : List Char) (v : ServerVariable),
      vars.find? (fun w => !validateVariableValue (variableValue w) w.rules) = some v →
      processVarsLoop cs vars = Except.error (variableViolation v) := by
  intro vars
  induction vars with
  | nil => intro cs v h; simp [List.find?] at h
  | cons w rest ih =>
    intro cs v h
    by_cases hw : validateVariableValue (variableValue w) w.rules = true
    · rw [List.find?_cons_of_neg _ (by simp [hw])] at h
      rw [processVarsLoop, if_pos hw]
      exact ih _ v h
    · rw [List.find?_cons_of_pos _ (by simp [hw])] at h
      injection h with h
      subst h
      rw [processVarsLoop, if_neg hw]

/-- C1 (counterexample): templating the string `"%a% %a%"` with the single
variable `a` (value `"x"`) substitutes only the first occurrence of `%a%`:
the source uses JS `String.replace` with a string pattern, which replaces
one occurrence, so the result is `"x %a%"`, not `"x x"` as the claim's
once-per-occurrence reading requires. -/
theorem processVariables_first_occurrence_only :
    processVariables "%a% %a%"
      [{ name := "a", description := none, defaultValue := "x", currentValue := none,
         rules := "" }] none = Except.ok "x %a%" ∧
    processVariables "%a% %a%"
      [{ name := "a", description := none, defaultValue := "x", currentValue := none,
         rules := "" }] none ≠ Except.ok "x x" := by
  decide

/-- C1 (amended): when every supplied variable's value passes its rules and
contains no `$` (so JS replacement-pattern escapes are inert), templating
substitutes, for each variable in list order, only the **first** occurrence
of its placeholder `%lowercase(replace(name, ' ', '_'))%` in the current
string with `currentValue ?? defaultValue`; later occurrences and
placeholders matching no variable are left unchanged (this is what
`specReplaceFirst` does). -/
theorem processVariables_replaces_first (input : String) (vars : List ServerVariable)
    (hval : ∀ v ∈ vars, validateVariableValue (variableValue v) v.rules = true)
    (hds : ∀ v ∈ vars, '$' ∉ (variableValue v).toList) :
    processVariables input vars none = Except.ok (List.asString (vars.foldl
      (fun r v => specReplaceFirst (placeholder v.name) (variableValue v).toList r)
      input.toList)) := by
  unfold processVariables
  rw [processVarsLoop_eq_foldl vars input.toList hval hds]

/-- C1 witness: `processVariables_replaces_first` at a concrete input where
the placeholder `%server_port%` occurs twice: only the first occurrence is
replaced. -/
theorem processVariables_replaces_first_witness :
    processVariables "A=%server_port% B=%server_port%"
      [{ name := "Server Port", description := none, defaultValue := "25565",
         currentValue := none, rules := "string|max:5" }] none =
      Except.ok "A=25565 B=%server_port%" := by
  rw [processVariables_replaces_first "A=%server_port% B=%server_port%"
    [{ name := "Server Port", description := none, defaultValue := "25565",
       currentValue := none, rules := "string|max:5" }] (by decide) (by decide)]
  decide

/-- C9 (confirmed): `processVariables` validates the value of **every**
variable in the supplied list, whether or not its placeholder occurs in the
input; the first variable (in list order) whose value violates its rules
makes the whole call fail with that variable's violation message, for every
input string and every cargo argument. -/
theorem processVariables_validates_unreferenced (input : String)
    (vars : List ServerVariable) (cargo : Option (List CargoFile)) (v : ServerVariable)
    (hfind : vars.find? (fun w => !validateVariableValue (variableValue w) w.rules) = some v) :
    processVariables input vars cargo = Except.error (variableViolation v) := by
  unfold processVariables
  rw [processVarsLoop_first_violation vars input.toList v hfind]

/-- C9 witness: templating a string with **no** placeholders still fails when
a supplied variable's value (`"toolong"`, 7 characters) violates its rules
(`max:3`). -/
theorem processVariables_validates_unreferenced_witness :
    processVariables "no placeholders here"
      [{ name := "MOTD", description := none, defaultValue := "toolong",
         currentValue := none, rules := "max:3" }] none =
      Except.error "Variable MOTD value doesn\x27t match rules: max:3" := by
  rw [processVariables_validates_unreferenced "no placeholders here"
    [{ name := "MOTD", description := none, defaultValue := "toolong",
       currentValue := none, rules := "max:3" }] none
    { name := "MOTD", description := none, defaultValue := "toolong",
      currentValue := none, rules := "max:3" } (by decide)]
  rfl

/-! ## Per-server log ring (`addLogToBuffer`, websocket.ts lines 706-719) -/

/-- `MAX_LOGS` of `WebSocketManager`. -/
def MAX_LOGS : Nat := 100

/-- `addLogToBuffer(internalId, log)` acting on one server's buffer: skip the
insert when the buffer already contains the log anywhere (`buffer.includes`);
otherwise push and, above capacity, shift the oldest entry. -/
def addLogToBuffer (buffer : List String) (log : String) : List String :=
  if buffer.contains log then buffer
  else
    let b := buffer ++ [log]
    if MAX_LOGS < b.length then b.tail else b

theorem addLogToBuffer_preserves (buffer : List String) (log : String)
    (hlen : buffer.length ≤ MAX_LOGS) (hnd : buffer.Nodup) :
    (addLogToBuffer buffer log).length ≤ MAX_LOGS ∧ (addLogToBuffer buffer log).Nodup := by
  unfold addLogToBuffer
  by_cases hmem : buffer.contains log
  · rw [if_pos hmem]
    exact ⟨hlen, hnd⟩
  · rw [if_neg hmem]
    have hnotin : log ∉ buffer := by
      intro hl
      exact hmem (List.elem_eq_true_of_mem hl)
    have hnd' : (buffer ++ [log]).Nodup := by
      simp [List.nodup_append, hnd, hnotin]
    by_cases hover : MAX_LOGS < (buffer ++ [log]).length
    · rw [if_pos hover]
      constructor
      · simp only [List.length_tail, List.length_append, List.length_singleton] at *
        omega
      · exact hnd'.sublist (List.tail_sublist _)
    · rw [if_neg hover]
      exact ⟨by omega, hnd'⟩

/-- C2 (counterexample): inserting `"a"`, `"b"`, `"a"` into an empty ring
yields `["a", "b"]`: the third insert is dropped even though it is not
adjacent to the earlier `"a"`, because the source deduplicates against the
whole buffer (`buffer.includes(log)`), not only against the last entry. -/
theorem addLogToBuffer_dedup_not_adjacent_only :
    List.foldl addLogToBuffer [] ["a", "b", "a"] = ["a", "b"] ∧
    List.foldl addLogToBuffer [] ["a", "b", "a"] ≠ ["a", "b", "a"] := by
  decide

/-- C2 (amended): the ring deduplicates against the **entire** buffer, so
after any insertion sequence starting from the empty buffer the entries are
pairwise distinct (in particular no two adjacent entries are equal) and the
length never exceeds 100; an insert equal to any current entry leaves the
buffer unchanged, and at capacity a fresh insert evicts the oldest entry
(FIFO). -/
theorem addLogToBuffer_ring_invariants :
    (∀ ls : List String, (List.foldl addLogToBuffer [] ls).length ≤ MAX_LOGS ∧
      (List.foldl addLogToBuffer [] ls).Nodup) ∧
    (∀ (b : List String) (l : String), l ∈ b → addLogToBuffer b l = b) ∧
    (∀ (b : List String) (l : String), l ∉ b → b.length = MAX_LOGS →
      addLogToBuffer b l = b.tail ++ [l]) := by
  refine ⟨fun ls => ?_, fun b l hl => ?_, fun b l hl hlen => ?_⟩
  · suffices h : ∀ (acc : List String), acc.length ≤ MAX_LOGS → acc.Nodup →
        (List.foldl addLogToBuffer acc ls).length ≤ MAX_LOGS ∧
        (List.foldl addLogToBuffer acc ls).Nodup by
      exact h [] (by simp [MAX_LOGS]) List.nodup_nil
    induction ls with
    | nil => intro acc h1 h2; exact ⟨h1, h2⟩
    | cons x xs ih =>
      intro acc h1 h2
      rw [List.foldl_cons]
      obtain ⟨h1', h2'⟩ := addLogToBuffer_preserves acc x h1 h2
      exact ih _ h1' h2'
  · unfold addLogToBuffer
    rw [if_pos (List.elem_eq_true_of_mem hl)]
  · unfold addLogToBuffer
    have hmem : ¬ b.contains l = true := by
      intro hc
      exact hl (List.mem_of_elem_eq_true hc)
    rw [if_neg hmem,
      if_pos (by simp only [List.length_append, List.length_singleton, hlen]; omega),
      List.tail_append_of_ne_nil]
    intro hb
    subst hb
    simp [MAX_LOGS] at hlen

/-- C2 witness: `addLogToBuffer_ring_invariants` at concrete inputs: a
duplicate insert is dropped, and a fresh insert into a full buffer of the
100 distinct entries `"0".."99"` evicts the oldest. -/
theorem addLogToBuffer_ring_invariants_witness :
    addLogToBuffer ["a", "b"] "a" = ["a", "b"] ∧
    addLogToBuffer ((List.range MAX_LOGS).map (fun n => toString n)) "x" =
      ((List.range MAX_LOGS).map (fun n => toString n)).tail ++ ["x"] :=
  ⟨addLogToBuffer_ring_invariants.2.1 ["a", "b"] "a" (by decide),
   addLogToBuffer_ring_invariants.2.2 ((List.range MAX_LOGS).map (fun n => toString n)) "x"
     (by decide) (by decide)⟩

/-! ## Docker multiplexed log framing (`attachLogs` data handler,
websocket.ts lines 237-305)

Byte buffers are `List Nat`; the parser returns the bytes appended to the
reassembly buffer (UTF-8 decoding is applied uniformly to every emitted
slice by the source and is orthogonal to the framing). -/

/-- One multiplexed record: stream type byte and payload. -/
structure LogRecord where
  streamType : Nat
  payload : List Nat
deriving DecidableEq

/-- Big-endian 32-bit encoding of a length (bytes 4-7 of a frame header). -/
def be32 (n : Nat) : List Nat := [n / 2 ^ 24 % 256, n / 2 ^ 16 % 256, n / 2 ^ 8 % 256, n % 256]

/-- `chunk.readUInt32BE(offset + 4)`. -/
def readUInt32BE (b4 b5 b6 b7 : Nat) : Nat := b4 * 2 ^ 24 + b5 * 2 ^ 16 + b6 * 2 ^ 8 + b7

/-- A correctly framed record: type byte, three zero padding bytes,
big-endian length, payload. -/
def frame (r : LogRecord) : List Nat :=
  r.streamType :: 0 :: 0 :: 0 :: (be32 r.payload.length ++ r.payload)

/-- Concatenation of the frames of a record list. -/
def framesConcat : List LogRecord → List Nat
  | [] => []
  | r :: rs => frame r ++ framesConcat rs

/-- Concatenation of the payloads of a record list. -/
def payloadsConcat : List LogRecord → List Nat
  | [] => []
  | r :: rs => r.payload ++ payloadsConcat rs

/-- The `while (offset < chunk.length)` loop of the `data` handler: `L` is
`chunk.length` (the loop validates `size <= chunk.length - 8` against the
whole chunk).  A structurally valid header emits the payload slice and
continues past it; anything else (short remainder included) emits the whole
remainder raw and stops. -/
def parseGo (L : Nat) : List Nat → List Nat
  | b0 :: b1 :: b2 :: b3 :: b4 :: b5 :: b6 :: b7 :: tail =>
    if h : b0 ≤ 2 ∧ b1 = 0 ∧ b2 = 0 ∧ b3 = 0 ∧ 0 < readUInt32BE b4 b5 b6 b7 ∧
        readUInt32BE b4 b5 b6 b7 ≤ L - 8 ∧ readUInt32BE b4 b5 b6 b7 ≤ tail.length then
      tail.take (readUInt32BE b4 b5 b6 b7) ++ parseGo L (tail.drop (readUInt32BE b4 b5 b6 b7))
    else b0 :: b1 :: b2 :: b3 :: b4 :: b5 :: b6 :: b7 :: tail
  | rest => rest
termination_by l => l.length
decreasing_by
  simp only [List.length_drop, List.length_cons]
  omega

/-- The parser's output for one delivered chunk. -/
def parseChunk (chunk : List Nat) : List Nat := parseGo chunk.length chunk

/-- The source's `isValidHeader` test for the header at offset 0. -/
def headerValid : List Nat → Bool
  | b0 :: b1 :: b2 :: b3 :: b4 :: b5 :: b6 :: b7 :: tail =>
    decide (b0 ≤ 2 ∧ b1 = 0 ∧ b2 = 0 ∧ b3 = 0 ∧ 0 < readUInt32BE b4 b5 b6 b7 ∧
      readUInt32BE b4 b5 b6 b7 ≤ (tail.length + 8) - 8 ∧
      readUInt32BE b4 b5 b6 b7 ≤ tail.length)
  | _ => false

theorem parseGo_cons (L b0 b1 b2 b3 b4 b5 b6 b7 : Nat) (tail : List Nat) :
    parseGo L (b0 :: b1 :: b2 :: b3 :: b4 :: b5 :: b6 :: b7 :: tail) =
      if b0 ≤ 2 ∧ b1 = 0 ∧ b2 = 0 ∧ b3 = 0 ∧ 0 < readUInt32BE b4 b5 b6 b7 ∧
          readUInt32BE b4 b5 b6 b7 ≤ L - 8 ∧ readUInt32BE b4 b5 b6 b7 ≤ tail.length then
        tail.take (readUInt32BE b4 b5 b6 b7) ++ parseGo L (tail.drop (readUInt32BE b4 b5 b6 b7))
      else b0 :: b1 :: b2 :: b3 :: b4 :: b5 :: b6 :: b7 :: tail := by
  rw [parseGo.eq_def]
  try rfl
  try simp

theorem parseGo_short (L : Nat) (rest : List Nat) (h : rest.length < 8) :
    parseGo L rest = rest := by
  rcases rest with _ | ⟨b0, _ | ⟨b1, _ | ⟨b2, _ | ⟨b3, _ | ⟨b4, _ | ⟨b5, _ | ⟨b6, _ | ⟨b7, tail⟩⟩⟩⟩⟩⟩⟩⟩
  · rw [parseGo.eq_def]
  · rw [parseGo.eq_def]
  · rw [parseGo.eq_def]
  · rw [parseGo.eq_def]
  · rw [parseGo.eq_def]
  · rw [parseGo.eq_def]
  · rw [parseGo.eq_def]
  · rw [parseGo.eq_def]
  · exfalso
    simp only [List.length_cons] at h
    omega

theorem readUInt32BE_be32 (n : Nat) (h : n < 2 ^ 32) :
    readUInt32BE (n / 2 ^ 24 % 256) (n / 2 ^ 16 % 256) (n / 2 ^ 8 % 256) (n % 256) = n := by
  unfold readUInt32BE
  omega

theorem parseGo_frames (L : Nat) :
    ∀ rs : List LogRecord,
      (∀ r ∈ rs, r.streamType ≤ 2 ∧ 0 < r.payload.length ∧ r.payload.length < 2 ^ 32) →
      (framesConcat rs).length ≤ L →
      parseGo L (framesConcat rs) = payloadsConcat rs := by
  intro rs
  induction rs with
  | nil =>
    intro _ _
    rw [framesConcat, payloadsConcat, parseGo.eq_def]
  | cons r rs ih =>
    intro hrec hlen
    obtain ⟨ht, hp, hlt⟩ := hrec r (List.mem_cons_self r rs)
    have hsize := readUInt32BE_be32 r.payload.length hlt
    have hshape : framesConcat (r :: rs) =
        r.streamType :: 0 :: 0 :: 0 :: (r.payload.length / 2 ^ 24 % 256) ::
          (r.payload.length / 2 ^ 16 % 256) :: (r.payload.length / 2 ^ 8 % 256) ::
          (r.payload.length % 256) :: (r.payload ++ framesConcat rs) := by
      simp [framesConcat, frame, be32]
    have hlen' : 8 + r.payload.length + (framesConcat rs).length ≤ L := by
      rw [hshape] at hlen
      simp only [List.length_cons, List.length_append] at hlen
      omega
    rw [hshape, parseGo_cons]
    rw [if_pos (by
      refine ⟨ht, rfl, rfl, rfl, ?_, ?_, ?_⟩
      · rw [hsize]; exact hp
      · rw [hsize]; omega
      · rw [hsize]; simp)]
    rw [hsize, List.take_left' rfl, List.drop_left' rfl, payloadsConcat]
    rw [ih (fun w hw => hrec w (List.mem_cons_of_mem r hw)) (by omega)]

/-- C3 (counterexample): a single **correctly framed** record with a
zero-length payload (stream type 1, bytes `[1,0,0,0,0,0,0,0]`) defeats the
claim: the concatenation of payloads is empty, but the parser's header check
requires `size > 0`, so it treats the whole frame as raw data and yields the
eight header bytes. -/
theorem attachLogs_zero_length_record_raw :
    framesConcat [⟨1, []⟩] = [1, 0, 0, 0, 0, 0, 0, 0] ∧
    parseChunk (framesConcat [⟨1, []⟩]) = [1, 0, 0, 0, 0, 0, 0, 0] ∧
    payloadsConcat [⟨1, []⟩] = [] ∧
    parseChunk (framesConcat [⟨1, []⟩]) ≠ payloadsConcat [⟨1, []⟩] := by
  have h1 : framesConcat [⟨1, []⟩] = [1, 0, 0, 0, 0, 0, 0, 0] := rfl
  have h2 : parseChunk (framesConcat [⟨1, []⟩]) = [1, 0, 0, 0, 0, 0, 0, 0] := by
    rw [h1]
    unfold parseChunk
    rw [parseGo_cons]
    rw [if_neg (by simp [readUInt32BE])]
  refine ⟨h1, h2, rfl, ?_⟩
  rw [h2]
  simp [payloadsConcat]

/-- C3 (amended): for a chunk that is a concatenation of correctly framed
records whose payloads are all **nonempty** (and of length `< 2^32`, with
stream types in `{0,1,2}`), the parser yields exactly the concatenation of
the payloads; a zero-length record instead triggers the raw fallback (see
the counterexample).  And for any chunk whose leading 8 bytes fail the
source's header validation (shorter than 8 bytes included), the parser
yields the entire chunk unchanged, as one raw payload. -/
theorem attachLogs_parser_spec :
    (∀ rs : List LogRecord,
      (∀ r ∈ rs, r.streamType ≤ 2 ∧ 0 < r.payload.length ∧ r.payload.length < 2 ^ 32) →
      parseChunk (framesConcat rs) = payloadsConcat rs) ∧
    (∀ chunk : List Nat, headerValid chunk = false → parseChunk chunk = chunk) := by
  constructor
  · intro rs hrs
    exact parseGo_frames (framesConcat rs).length rs hrs le_rfl
  · intro chunk hh
    unfold parseChunk
    rcases chunk with _ | ⟨b0, _ | ⟨b1, _ | ⟨b2, _ | ⟨b3, _ | ⟨b4, _ | ⟨b5, _ | ⟨b6, _ | ⟨b7, tail⟩⟩⟩⟩⟩⟩⟩⟩
    · exact parseGo_short _ _ (by simp)
    · exact parseGo_short _ _ (by simp)
    · exact parseGo_short _ _ (by simp)
    · exact parseGo_short _ _ (by simp)
    · exact parseGo_short _ _ (by simp)
    · exact parseGo_short _ _ (by simp)
    · exact parseGo_short _ _ (by simp)
    · exact parseGo_short _ _ (by simp)
    rw [parseGo_cons]
    rw [if_neg]
    intro hcond
    rw [headerValid] at hh
    have hh' := of_decide_eq_false hh
    apply hh'
    obtain ⟨c1, c2, c3, c4, c5, c6, c7⟩ := hcond
    refine ⟨c1, c2, c3, c4, c5, ?_, c7⟩
    simp only [List.length_cons] at c6
    omega

/-- C3 witness: `attachLogs_parser_spec` at concrete inputs: two nonempty
records parse to the concatenation of their payloads, and a chunk whose
first byte is not a valid stream type comes back unchanged. -/
theorem attachLogs_parser_spec_witness :
    parseChunk (framesConcat [⟨1, [104, 105]⟩, ⟨2, [10]⟩]) =
      payloadsConcat [⟨1, [104, 105]⟩, ⟨2, [10]⟩] ∧
    parseChunk [9, 9, 9] = [9, 9, 9] :=
  ⟨attachLogs_parser_spec.1 [⟨1, [104, 105]⟩, ⟨2, [10]⟩] (by decide),
   attachLogs_parser_spec.2 [9, 9, 9] (by decide)⟩

/-! ## Power actions (`handlePowerAction`, websocket.ts lines 470-517) -/

/-- A container power command, with the graceful-timeout argument (seconds)
where the source passes one. -/
inductive PowerOp where
  | start : PowerOp
  | stop : Nat → PowerOp
  | kill : PowerOp
  | restart : Nat → PowerOp
deriving DecidableEq

/-- `containerInfo.State.Status.replace('exited', 'stopped')`. -/
def normalizeStatus (status : String) : List Char :=
  jsReplaceFirst status.toList "exited".toList "stopped".toList

/-- `handlePowerAction(session, action)` reduced to its decision kernel:
given the action string and the container's inspected status, either the
thrown error (unknown action, or an illegal transition — surfaced to the
client as an `error` frame, with **no** power command issued) or the list of
power commands issued to the container. -/
def handlePowerAction (action : String) (status : String) : Except String (List PowerOp) :=
  if action = "start" ∨ action = "stop" ∨ action = "restart" ∨ action = "kill" then
    let currentState := normalizeStatus status
    if (action = "start" ∧ currentState = "running".toList) ∨
        ((action = "stop" ∨ action = "kill") ∧ currentState = "stopped".toList) ∨
        (action = "restart" ∧ currentState = "restarting".toList) then
      Except.error ("Server is already in " ++ currentState.asString ++ " state")
    else if action = "start" then Except.ok [PowerOp.start]
    else if action = "stop" then Except.ok [PowerOp.stop 30]
    else if action = "kill" then Except.ok [PowerOp.kill]
    else Except.ok [PowerOp.restart 30]
  else Except.error "Invalid power action"

/-- C5 (confirmed): power actions are gated on the normalized container
state (`exited` read as `stopped`): `start` while running, `stop`/`kill`
while stopped and `restart` while restarting are rejected with an error and
no container power command is issued; legal `stop` and `restart` get a 30 s
graceful timeout, legal `kill` is issued with no grace argument. -/
theorem handlePowerAction_gating (status : String) :
    (normalizeStatus status = "running".toList →
      handlePowerAction "start" status = Except.error "Server is already in running state") ∧
    (normalizeStatus status = "stopped".toList →
      handlePowerAction "stop" status = Except.error "Server is already in stopped state" ∧
      handlePowerAction "kill" status = Except.error "Server is already in stopped state") ∧
    (normalizeStatus status = "restarting".toList →
      handlePowerAction "restart" status =
        Except.error "Server is already in restarting state") ∧
    (normalizeStatus status ≠ "running".toList →
      handlePowerAction "start" status = Except.ok [PowerOp.start]) ∧
    (normalizeStatus status ≠ "stopped".toList →
      handlePowerAction "stop" status = Except.ok [PowerOp.stop 30] ∧
      handlePowerAction "kill" status = Except.ok [PowerOp.kill]) ∧
    (normalizeStatus status ≠ "restarting".toList →
      handlePowerAction "restart" status = Except.ok [PowerOp.restart 30]) := by
  refine ⟨fun h => ?_, fun h => ⟨?_, ?_⟩, fun h => ?_, fun h => ?_, fun h => ⟨?_, ?_⟩,
    fun h => ?_⟩ <;>
    simp [handlePowerAction, h] <;>
    first
    | exact h
    | decide

/-- C5 witness: `handlePowerAction_gating` at the concrete statuses
`"exited"` (normalized to `stopped`: `stop` and `kill` are rejected,
`start` proceeds) and `"running"` (`stop` with 30 s grace, `kill`
immediate, `start` rejected). -/
theorem handlePowerAction_gating_witness :
    (handlePowerAction "stop" "exited" = Except.error "Server is already in stopped state" ∧
     handlePowerAction "kill" "exited" = Except.error "Server is already in stopped state") ∧
    handlePowerAction "start" "exited" = Except.ok [PowerOp.start] ∧
    handlePowerAction "start" "running" = Except.error "Server is already in running state" ∧
    (handlePowerAction "stop" "running" = Except.ok [PowerOp.stop 30] ∧
     handlePowerAction "kill" "running" = Except.ok [PowerOp.kill]) :=
  ⟨(handlePowerAction_gating "exited").2.1 (by decide),
   (handlePowerAction_gating "exited").2.2.2.1 (by decide),
   (handlePowerAction_gating "running").1 (by decide),
   (handlePowerAction_gating "running").2.2.2.2.1 (by decide)⟩

/-! ## Server deletion (`router.delete("/:id")`, part_000 lines 1186-1226) -/

/-- The persisted row the delete route reads (`SELECT docker_id …`). -/
structure ServerRow where
  docker_id : Option String

/-- The node-local state the delete route touches: the record (when
present), and whether the volume directory exists. -/
structure DaemonState where
  record : Option ServerRow
  volumeExists : Bool

/-- The delete route: 404 when no record; otherwise attempt container
removal when a `docker_id` is stored — a failing removal
(`containerRemoval = .error`) is logged and swallowed — then remove the
volume directory and the database record and answer 204.  Returns the HTTP
status, the resulting state, and the `logEvent` trail. -/
def deleteServer (st : DaemonState) (containerRemoval : Except String Unit) :
    Nat × DaemonState × List String :=
  match st.record with
  | none => (404, st, [])
  | some row =>
    let removalLog :=
      match row.docker_id, containerRemoval with
      | none, _ => []
      | some _, Except.ok _ => ["Removed container"]
      | some _, Except.error _ => ["Failed to remove container"]
    (204, ⟨none, false⟩, removalLog ++ ["Removed volume directory", "Removed from database"])

/-- C6 (confirmed): deleting an existing record answers 204 and removes the
record — even when the container-removal step fails, in which case the
failure is only logged and volume and record removal still proceed — a
second delete of the same id answers 404 (record gone), and the route never
answers anything but 204 or 404 for any container-removal outcome. -/
theorem deleteServer_idempotent :
    (∀ (st : DaemonState) (r1 r2 : Except String Unit) (row : ServerRow),
      st.record = some row →
      (deleteServer st r1).1 = 204 ∧
      (deleteServer st r1).2.1.record = none ∧
      (deleteServer (deleteServer st r1).2.1 r2).1 = 404) ∧
    (∀ (st : DaemonState) (cid : String) (e : String),
      st.record = some ⟨some cid⟩ →
      (deleteServer st (Except.error e)).1 = 204 ∧
      (deleteServer st (Except.error e)).2.2 =
        ["Failed to remove container", "Removed volume directory", "Removed from database"]) ∧
    (∀ (st : DaemonState) (r : Except String Unit),
      (deleteServer st r).1 = 204 ∨ (deleteServer st r).1 = 404) := by
  refine ⟨fun st r1 r2 row h => ?_, fun st cid e h => ?_, fun st r => ?_⟩
  · simp [deleteServer, h]
  · simp [deleteServer, h]
  · cases hrec : st.record with
    | none => right; simp [deleteServer, hrec]
    | some row => left; simp [deleteServer, hrec]

/-- C6 witness: `deleteServer_idempotent` at a concrete state whose
container is already gone (removal fails): first delete answers 204 and
logs the swallowed failure, the repeat answers 404. -/
theorem deleteServer_idempotent_witness :
    (deleteServer ⟨some ⟨some "c1"⟩, true⟩ (Except.error "no such container")).1 = 204 ∧
    (deleteServer ⟨some ⟨some "c1"⟩, true⟩ (Except.error "no such container")).2.1.record =
      none ∧
    (deleteServer (deleteServer ⟨some ⟨some "c1"⟩, true⟩
      (Except.error "no such container")).2.1 (Except.error "no such container")).1 = 404 ∧
    (deleteServer ⟨some ⟨some "c1"⟩, true⟩ (Except.error "no such container")).2.2 =
      ["Failed to remove container", "Removed volume directory", "Removed from database"] :=
  ⟨(deleteServer_idempotent.1 ⟨some ⟨some "c1"⟩, true⟩ (Except.error "no such container")
      (Except.error "no such container") ⟨some "c1"⟩ rfl).1,
   (deleteServer_idempotent.1 ⟨some ⟨some "c1"⟩, true⟩ (Except.error "no such container")
      (Except.error "no such container") ⟨some "c1"⟩ rfl).2.1,
   (deleteServer_idempotent.1 ⟨some ⟨some "c1"⟩, true⟩ (Except.error "no such container")
      (Except.error "no such container") ⟨some "c1"⟩ rfl).2.2,
   (deleteServer_idempotent.2.1 ⟨some ⟨some "c1"⟩, true⟩ "c1" "no such container" rfl).2⟩

/-! ## Panel config fetch (`fetchServerConfig`, part_000 lines 72-101) -/

/-- The outcome of one `axios.get` call: a resolved response (axios resolves
2xx statuses by default) or a rejected promise (transport failure, timeout,
or non-2xx status). -/
inductive AxiosResult where
  | response : Nat → String → AxiosResult
  | failure : String → AxiosResult
deriving DecidableEq

/-- `maxRetries` of `fetchServerConfig`. -/
def maxRetries : Nat := 3

/-- The message of the error thrown after exhausting all attempts
(`lastError?.message` is `undefined` when no attempt threw). -/
def fetchFailMsg (lastError : Option String) : String :=
  "Failed to fetch server configuration after 3 attempts: " ++ lastError.getD "undefined"

/-- The `for (attempt = 1; attempt <= maxRetries; attempt++)` loop:
`remaining` counts the attempts left (the loop guard), `env attempt` is the
environment's outcome for the numbered attempt.  A 200 response returns its
body at once; any other resolved response falls through (200-check `false`)
with **no** sleep and no `lastError` update; a rejected call records
`lastError` and sleeps `1000 * attempt` ms when `attempt < maxRetries`.
Returns the result, the list of sleeps performed, and the number of
attempts made. -/
def fetchLoop (env : Nat → AxiosResult) : Nat → Nat → Option String →
    Except String String × List Nat × Nat
  | 0, _, lastError => (Except.error (fetchFailMsg lastError), [], 0)
  | remaining + 1, attempt, lastError =>
    match env attempt with
    | AxiosResult.response status body =>
      if status = 200 then (Except.ok body, [], 1)
      else
        let r := fetchLoop env remaining (attempt + 1) lastError
        (r.1, r.2.1, r.2.2 + 1)
    | AxiosResult.failure m =>
      let r := fetchLoop env remaining (attempt + 1) (some m)
      (r.1, (if attempt < maxRetries then [1000 * attempt] else []) ++ r.2.1, r.2.2 + 1)

/-- `fetchServerConfig(appUrl, serverId)` for a given environment. -/
def fetchServerConfig (env : Nat → AxiosResult) : Except String String × List Nat × Nat :=
  fetchLoop env maxRetries 1 none

/-- Did this attempt return with status 200? -/
def is200 : AxiosResult → Bool
  | AxiosResult.response status _ => status == 200
  | AxiosResult.failure _ => false

/-- Did this attempt throw? -/
def isFailure : AxiosResult → Bool
  | AxiosResult.response _ _ => false
  | AxiosResult.failure _ => true

/-- The back-off sleeps the loop performs over the first `k` attempts when
they all fail: `1000 * i` for each attempt `i ≤ k` that **threw**. -/
def backoffs (env : Nat → AxiosResult) (k : Nat) : List Nat :=
  ((List.range' 1 k).filter fun i => isFailure (env i)).map fun i => 1000 * i

theorem fetchLoop_attempts_le (env : Nat → AxiosResult) :
    ∀ (remaining attempt : Nat) (le : Option String),
      (fetchLoop env remaining attempt le).2.2 ≤ remaining := by
  intro remaining
  induction remaining with
  | zero => intro _ _; simp [fetchLoop]
  | succ n ih =>
    intro attempt le
    rw [fetchLoop]
    cases henv : env attempt with
    | response s b =>
      by_cases hs : s = 200
      · subst hs; simp
      · simp only [if_neg hs]
        exact Nat.succ_le_succ (ih _ _)
    | failure m =>
      simp only []
      exact Nat.succ_le_succ (ih _ _)

/-- C7 (counterexample): when attempt 1 resolves with status 204 (a failed
attempt: it does not return) and attempt 2 resolves with 200, the code
retries **without any back-off sleep** — the 1-second wait only happens in
the `catch` branch, and a resolved non-200 response does not throw.  The
claim's "waits 1 second times the attempt number after each failed attempt
except the last" demands the sleep list `[1000]` here. -/
theorem fetchServerConfig_no_backoff_after_non200 :
    is200 ((fun n => if n = 1 then AxiosResult.response 204 "no content"
      else AxiosResult.response 200 "cfg") 1) = false ∧
    fetchServerConfig (fun n => if n = 1 then AxiosResult.response 204 "no content"
      else AxiosResult.response 200 "cfg") = (Except.ok "cfg", [], 2) ∧
    ([] : List Nat) ≠ [1000 * 1] := by
  decide

/-- C7 (amended): `fetchServerConfig` makes at most 3 attempts; when the
first `k - 1` attempts fail (none returns 200) and attempt `k ≤ 3` resolves
with status 200, it returns that body after exactly `k` attempts, having
slept `1000 * i` ms after exactly those earlier attempts `i` that **threw**
(transport failure or non-2xx rejection) — a resolved 2xx-but-not-200
response retries immediately with no back-off; and when no attempt returns
200 it fails with an error after all 3 attempts, with sleeps after exactly
the thrown attempts among the first two. -/
theorem fetchServerConfig_retry_spec (env : Nat → AxiosResult) :
    (fetchServerConfig env).2.2 ≤ 3 ∧
    (∀ k b, 1 ≤ k → k ≤ 3 → (∀ i, 1 ≤ i → i < k → is200 (env i) = false) →
      env k = AxiosResult.response 200 b →
      fetchServerConfig env = (Except.ok b, backoffs env (k - 1), k)) ∧
    ((∀ i, 1 ≤ i → i ≤ 3 → is200 (env i) = false) →
      ∃ m, fetchServerConfig env = (Except.error m, backoffs env 2, 3)) := by
  have hnot200 : ∀ (i s : Nat) (b : String), env i = AxiosResult.response s b →
      is200 (env i) = false → ¬ s = 200 := by
    intro i s b hi hf
    rw [hi] at hf
    simpa [is200] using hf
  refine ⟨fetchLoop_attempts_le env maxRetries 1 none, ?_, ?_⟩
  · intro k b hk1 hk3 hbefore hk
    interval_cases k
    · simp [fetchServerConfig, maxRetries, fetchLoop, hk, backoffs, List.range']
    · cases h1 : env 1 with
      | response s1 b1 =>
        have hs1 := hnot200 1 s1 b1 h1 (hbefore 1 le_rfl (by omega))
        simp [fetchServerConfig, maxRetries, fetchLoop, h1, hs1, hk, backoffs, List.range',
          isFailure]
      | failure m1 =>
        simp [fetchServerConfig, maxRetries, fetchLoop, h1, hk, backoffs, List.range',
          isFailure]
    · cases h1 : env 1 with
      | response s1 b1 =>
        have hs1 := hnot200 1 s1 b1 h1 (hbefore 1 le_rfl (by omega))
        cases h2 : env 2 with
        | response s2 b2 =>
          have hs2 := hnot200 2 s2 b2 h2 (hbefore 2 (by omega) (by omega))
          simp [fetchServerConfig, maxRetries, fetchLoop, h1, hs1, h2, hs2, hk, backoffs,
            List.range', isFailure]
        | failure m2 =>
          simp [fetchServerConfig, maxRetries, fetchLoop, h1, hs1, h2, hk, backoffs,
            List.range', isFailure]
      | failure m1 =>
        cases h2 : env 2 with
        | response s2 b2 =>
          have hs2 := hnot200 2 s2 b2 h2 (hbefore 2 (by omega) (by omega))
          simp [fetchServerConfig, maxRetries, fetchLoop, h1, h2, hs2, hk, backoffs,
            List.range', isFailure]
        | failure m2 =>
          simp [fetchServerConfig, maxRetries, fetchLoop, h1, h2, hk, backoffs,
            List.range', isFailure]
  · intro hall
    have step : ∀ i, 1 ≤ i → i ≤ 3 →
        (∃ s b, env i = AxiosResult.response s b ∧ ¬ s = 200) ∨
        (∃ m, env i = AxiosResult.failure m) := by
      intro i hi1 hi3
      cases hi : env i with
      | response s b => exact Or.inl ⟨s, b, rfl, hnot200 i s b hi (hall i hi1 hi3)⟩
      | failure m => exact Or.inr ⟨m, rfl⟩
    rcases step 1 le_rfl (by omega) with ⟨s1, b1, h1, hs1⟩ | ⟨m1, h1⟩ <;>
      rcases step 2 (by omega) (by omega) with ⟨s2, b2, h2, hs2⟩ | ⟨m2, h2⟩ <;>
      rcases step 3 (by omega) (by omega) with ⟨s3, b3, h3, hs3⟩ | ⟨m3, h3⟩
    · exact ⟨fetchFailMsg none, by
        simp [fetchServerConfig, maxRetries, fetchLoop, h1, h2, h3, backoffs,
          List.range', isFailure, hs1, hs2, hs3]⟩
    · exact ⟨fetchFailMsg (some m3), by
        simp [fetchServerConfig, maxRetries, fetchLoop, h1, h2, h3, backoffs,
          List.range', isFailure, hs1, hs2]⟩
    · exact ⟨fetchFailMsg (some m2), by
        simp [fetchServerConfig, maxRetries, fetchLoop, h1, h2, h3, backoffs,
          List.range', isFailure, hs1, hs3]⟩
    · exact ⟨fetchFailMsg (some m3), by
        simp [fetchServerConfig, maxRetries, fetchLoop, h1, h2, h3, backoffs,
          List.range', isFailure, hs1]⟩
    · exact ⟨fetchFailMsg (some m1), by
        simp [fetchServerConfig, maxRetries, fetchLoop, h1, h2, h3, backoffs,
          List.range', isFailure, hs2, hs3]⟩
    · exact ⟨fetchFailMsg (some m3), by
        simp [fetchServerConfig, maxRetries, fetchLoop, h1, h2, h3, backoffs,
          List.range', isFailure, hs2]⟩
    · exact ⟨fetchFailMsg (some m2), by
        simp [fetchServerConfig, maxRetries, fetchLoop, h1, h2, h3, backoffs,
          List.range', isFailure, hs3]⟩
    · exact ⟨fetchFailMsg (some m3), by
        simp [fetchServerConfig, maxRetries, fetchLoop, h1, h2, h3, backoffs,
          List.range', isFailure]⟩

/-- C7 witness: `fetchServerConfig_retry_spec` at two concrete environments:
all three attempts throwing gives an error after sleeps of 1 s and 2 s, and
a first-attempt 200 returns immediately with no sleeps. -/
theorem fetchServerConfig_retry_spec_witness :
    (∃ m, fetchServerConfig (fun _ => AxiosResult.failure "ECONNREFUSED") =
      (Except.error m,
        backoffs (fun _ => AxiosResult.failure "ECONNREFUSED") 2, 3)) ∧
    fetchServerConfig (fun _ => AxiosResult.response 200 "cfg") =
      (Except.ok "cfg", backoffs (fun _ => AxiosResult.response 200 "cfg") 0, 1) :=
  ⟨(fetchServerConfig_retry_spec (fun _ => AxiosResult.failure "ECONNREFUSED")).2.2
      (by intro i _ _; decide),
   (fetchServerConfig_retry_spec (fun _ => AxiosResult.response 200 "cfg")).2.1 1 "cfg"
      le_rfl (by omega) (by intro i _ h; omega) rfl⟩

/-! ## Stats sampling (`calculateCPUPercent`, websocket.ts lines 813-821)

Docker's counters are sampled as JS numbers; they are modelled as rationals
so that the division is exact. -/

/-- `memory_stats` of a stats snapshot. -/
structure MemoryStats where
  usage : Rat
  limit : Rat

/-- `cpu_usage` of a stats snapshot. -/
structure CpuUsageStats where
  total_usage : Rat

/-- `cpu_stats` of a stats snapshot. -/
structure CpuStats where
  cpu_usage : CpuUsageStats
  system_cpu_usage : Rat
  online_cpus : Rat

/-- `precpu_stats` of a stats snapshot. -/
structure PreCpuStats where
  cpu_usage : CpuUsageStats
  system_cpu_usage : Rat

/-- `networks.eth0` of a stats snapshot. -/
structure NetworkEth0 where
  rx_bytes : Rat
  tx_bytes : Rat

/-- The fields of `ContainerStatsResponse` used by the sampler. -/
structure ContainerStatsResponse where
  memory_stats : MemoryStats
  cpu_stats : CpuStats
  precpu_stats : PreCpuStats
  networks : Option NetworkEth0

/-- `calculateCPUPercent(stats)`: the capped ratio formula, but only when
both deltas are strictly positive; otherwise `0`. -/
def calculateCPUPercent (stats : ContainerStatsResponse) : Rat :=
  let cpuDelta := stats.cpu_stats.cpu_usage.total_usage -
    stats.precpu_stats.cpu_usage.total_usage
  let systemDelta := stats.cpu_stats.system_cpu_usage - stats.precpu_stats.system_cpu_usage
  let cpuCount := stats.cpu_stats.online_cpus
  if 0 < systemDelta ∧ 0 < cpuDelta then min (cpuDelta / systemDelta * cpuCount * 100) 100
  else 0

/-- The formula the claim states:
`min((Δtotal / Δsystem) × online_cpus × 100, 100)` unconditionally. -/
def cpuPercentFormula (stats : ContainerStatsResponse) : Rat :=
  min ((stats.cpu_stats.cpu_usage.total_usage - stats.precpu_stats.cpu_usage.total_usage) /
      (stats.cpu_stats.system_cpu_usage - stats.precpu_stats.system_cpu_usage) *
      stats.cpu_stats.online_cpus * 100) 100

/-- C8 (counterexample): on a sample whose total-usage counter went down
(`Δtotal = -1`, e.g. after a counter reset) with `Δsystem = 2` and one CPU,
the claim's formula gives `-50` while the code reports `0`: the source
returns the formula only when both deltas are positive. -/
theorem calculateCPUPercent_not_formula :
    calculateCPUPercent ⟨⟨0, 1⟩, ⟨⟨0⟩, 2, 1⟩, ⟨⟨1⟩, 0⟩, none⟩ = 0 ∧
    cpuPercentFormula ⟨⟨0, 1⟩, ⟨⟨0⟩, 2, 1⟩, ⟨⟨1⟩, 0⟩, none⟩ = -50 ∧
    calculateCPUPercent ⟨⟨0, 1⟩, ⟨⟨0⟩, 2, 1⟩, ⟨⟨1⟩, 0⟩, none⟩ ≠
      cpuPercentFormula ⟨⟨0, 1⟩, ⟨⟨0⟩, 2, 1⟩, ⟨⟨1⟩, 0⟩, none⟩ := by
  refine ⟨?_, ?_, ?_⟩ <;> norm_num [calculateCPUPercent, cpuPercentFormula]

/-- C8 (amended): the reported CPU percentage equals
`min((Δtotal / Δsystem) × online_cpus × 100, 100)` whenever both deltas are
strictly positive, is `0` whenever either delta is not, and in all cases
never exceeds 100. -/
theorem calculateCPUPercent_spec (stats : ContainerStatsResponse) :
    (0 < stats.cpu_stats.system_cpu_usage - stats.precpu_stats.system_cpu_usage →
      0 < stats.cpu_stats.cpu_usage.total_usage - stats.precpu_stats.cpu_usage.total_usage →
      calculateCPUPercent stats = cpuPercentFormula stats) ∧
    (¬(0 < stats.cpu_stats.system_cpu_usage - stats.precpu_stats.system_cpu_usage ∧
        0 < stats.cpu_stats.cpu_usage.total_usage -
          stats.precpu_stats.cpu_usage.total_usage) →
      calculateCPUPercent stats = 0) ∧
    calculateCPUPercent stats ≤ 100 := by
  refine ⟨fun h1 h2 => ?_, fun h => ?_, ?_⟩
  · simp [calculateCPUPercent, cpuPercentFormula, h1, h2]
  · simp only [calculateCPUPercent]
    rw [if_neg h]
  · simp only [calculateCPUPercent]
    split
    · exact min_le_right _ _
    · norm_num

/-- C8 witness: `calculateCPUPercent_spec` at concrete samples: with
`Δtotal = 2`, `Δsystem = 4`, two CPUs the report equals the formula (here
`min(100, 100) = 100`), and with a negative `Δtotal` it is `0`. -/
theorem calculateCPUPercent_spec_witness :
    calculateCPUPercent ⟨⟨0, 1⟩, ⟨⟨3⟩, 4, 2⟩, ⟨⟨1⟩, 0⟩, none⟩ =
      cpuPercentFormula ⟨⟨0, 1⟩, ⟨⟨3⟩, 4, 2⟩, ⟨⟨1⟩, 0⟩, none⟩ ∧
    calculateCPUPercent ⟨⟨0, 1⟩, ⟨⟨0⟩, 2, 1⟩, ⟨⟨1⟩, 0⟩, none⟩ = 0 :=
  ⟨(calculateCPUPercent_spec ⟨⟨0, 1⟩, ⟨⟨3⟩, 4, 2⟩, ⟨⟨1⟩, 0⟩, none⟩).1
      (by norm_num) (by norm_num),
   (calculateCPUPercent_spec ⟨⟨0, 1⟩, ⟨⟨0⟩, 2, 1⟩, ⟨⟨1⟩, 0⟩, none⟩).2.1
      (by norm_num)⟩

/-! ## Validation cache and the socket close handler
(`validateToken` lines 127-158, close handler lines 643-675, websocket.ts) -/

/-- `node` of the panel's validate response. -/
structure NodeInfo where
  id : String
  name : String
  fqdn : String
  port : Nat

/-- `server` of the panel's validate response. -/
structure PanelServerInfo where
  id : String
  name : String
  internalId : String
  node : NodeInfo

/-- The panel's `ValidateResponse`. -/
structure ValidateResponse where
  validated : Bool
  server : PanelServerInfo

/-- One `validationCache` entry. -/
structure CachedValidation where
  validation : ValidateResponse
  timestamp : Nat

/-- `CACHE_TTL` (10 minutes in milliseconds). -/
def CACHE_TTL : Nat := 600000

/-- `generateCacheKey(internalId, token)`: the SHA-256 hex digest of
`internalId ++ ":" ++ token`; the digest function is an arbitrary parameter
`hash` — every theorem below holds for any choice. -/
def generateCacheKey (hash : String → String) (internalId token : String) : String :=
  hash (internalId ++ ":" ++ token)

/-- `validationCache.get`. -/
def cacheLookup (cache : List (String × CachedValidation)) (key : String) :
    Option CachedValidation :=
  List.lookup key cache

/-- `validationCache.set` (keys are unique in a JS `Map`). -/
def cacheSet (cache : List (String × CachedValidation)) (key : String)
    (v : CachedValidation) : List (String × CachedValidation) :=
  (key, v) :: cache.filter fun p => p.1 != key

/-- `validationCache.delete`. -/
def cacheDelete (cache : List (String × CachedValidation)) (key : String) :
    List (String × CachedValidation) :=
  cache.filter fun p => p.1 != key

/-- `validateToken(internalId, token)`: serve from the cache when the entry
is younger than `CACHE_TTL`, otherwise contact the panel (`panel` is the
outcome of the axios GET: `none` models a failure, which returns `null`).
Returns the result, the new cache, and whether the panel was contacted. -/
def validateToken (hash : String → String) (cache : List (String × CachedValidation))
    (now : Nat) (internalId token : String) (panel : Option ValidateResponse) :
    Option ValidateResponse × List (String × CachedValidation) × Bool :=
  let cacheKey := generateCacheKey hash internalId token
  match cacheLookup cache cacheKey with
  | some cached =>
    if now - cached.timestamp < CACHE_TTL then (some cached.validation, cache, false)
    else
      match panel with
      | some v => (some v, cacheSet cache cacheKey ⟨v, now⟩, true)
      | none => (none, cache, true)
  | none =>
    match panel with
    | some v => (some v, cacheSet cache cacheKey ⟨v, now⟩, true)
    | none => (none, cache, true)

/-- The cache effect of the socket `close` handler (normal path): delete the
entry keyed by this session's `(internalId, token)`. -/
def closeCleanupCache (hash : String → String) (cache : List (String × CachedValidation))
    (internalId token : String) : List (String × CachedValidation) :=
  cacheDelete cache (generateCacheKey hash internalId token)

theorem cacheLookup_delete (cache : List (String × CachedValidation)) (key : String) :
    cacheLookup (cacheDelete cache key) key = none := by
  induction cache with
  | nil => rfl
  | cons p rest ih =>
    obtain ⟨k, v⟩ := p
    by_cases hp : k = key
    · simp only [cacheDelete, List.filter_cons, show ((k, v).1 != key) = false by simp [hp]]
      exact ih
    · simp only [cacheDelete, List.filter_cons, show ((k, v).1 != key) = true by simp [hp]]
      simp only [cacheLookup, List.lookup, show (key == k) = false by
        simp [Ne.symm hp]]
      exact ih

/-- C10 (confirmed): when a session's socket closes, the cache entry keyed
by the hash of that session's `(serverId, token)` is deleted — the lookup of
that key misses afterwards regardless of its age — so the next
`validateToken` for the same server id and token contacts the panel, at any
`now` (i.e. even inside the original entry's 10-minute TTL) and for any
panel outcome. -/
theorem closeHandler_invalidates_cache (hash : String → String)
    (cache : List (String × CachedValidation)) (internalId token : String)
    (now : Nat) (panel : Option ValidateResponse) :
    cacheLookup (closeCleanupCache hash cache internalId token)
      (generateCacheKey hash internalId token) = none ∧
    (validateToken hash (closeCleanupCache hash cache internalId token) now internalId token
      panel).2.2 = true := by
  have hl : cacheLookup (closeCleanupCache hash cache internalId token)
      (generateCacheKey hash internalId token) = none :=
    cacheLookup_delete cache (generateCacheKey hash internalId token)
  refine ⟨hl, ?_⟩
  simp only [validateToken]
  rw [hl]
  cases panel <;> rfl

end Krypton
